import Mathlib

/-!
Verification of the asset pairing and integrity engine of `src/upload/assets.rs`
(repository blockchain-bros/sugar), as a shallow embedding in Lean 4.

Filesystem effects are made explicit: a directory listing models
`fs::read_dir`, and a map from paths to file data models `File::open` plus
`serde_json::from_reader`.  Computations that can end in a Rust `panic!`
(an `expect`/`unwrap` failure or an out-of-bounds `Vec` index) are
distinguished from ones that return `Err` through the `RunResult` type.
-/

/-- Outcome of running a fallible Rust computation: `ok` models `Ok`,
`err` models a returned `Err`, and `panic` models a process abort coming
from `expect`, `unwrap` or an out-of-bounds slice index. -/
inductive RunResult (ε α : Type) where
  | ok (a : α)
  | err (e : ε)
  | panic (msg : String)
deriving DecidableEq, Repr

/-- 32-bit truncation, written on `Nat` with an explicit modulus. -/
def w32 (n : Nat) : Nat := n % 4294967296

/-- 32-bit right rotation by `k`. -/
def rotr (k x : Nat) : Nat := w32 ((x >>> k) ||| (x <<< (32 - k)))

def bsig0 (x : Nat) : Nat := (rotr 2 x) ^^^ (rotr 13 x) ^^^ (rotr 22 x)

def bsig1 (x : Nat) : Nat := (rotr 6 x) ^^^ (rotr 11 x) ^^^ (rotr 25 x)

def ssig0 (x : Nat) : Nat := (rotr 7 x) ^^^ (rotr 18 x) ^^^ (x >>> 3)

def ssig1 (x : Nat) : Nat := (rotr 17 x) ^^^ (rotr 19 x) ^^^ (x >>> 10)

/-- The 64 round constants of FIPS 180-4, written in decimal. -/
def sha256K : List Nat :=
  [1116352408, 1899447441, 3049323471, 3921009573, 961987163,
   1508970993, 2453635748, 2870763221, 3624381080, 310598401,
   607225278, 1426881987, 1925078388, 2162078206, 2614888103,
   3248222580, 3835390401, 4022224774, 264347078, 604807628,
   770255983, 1249150122, 1555081692, 1996064986, 2554220882,
   2821834349, 2952996808, 3210313671, 3336571891, 3584528711,
   113926993, 338241895, 666307205, 773529912, 1294757372,
   1396182291, 1695183700, 1986661051, 2177026350, 2456956037,
   2730485921, 2820302411, 3259730800, 3345764771, 3516065817,
   3600352804, 4094571909, 275423344, 430227734, 506948616,
   659060556, 883997877, 958139571, 1322822218, 1537002063,
   1747873779, 1955562222, 2024104815, 2227730452, 2361852424,
   2428436474, 2756734187, 3204031479, 3329325298]

/-- The initial hash state of FIPS 180-4, written in decimal. -/
def sha256H0 : List Nat :=
  [1779033703, 3144134277, 1013904242, 2773480762,
   1359893119, 2600822924, 528734635, 1541459225]

/-- Big-endian 8-byte rendering of a length-in-bits counter. -/
def toBE64 (n : Nat) : List Nat :=
  (List.range 8).map (fun i => (n >>> (8 * (7 - i))) % 256)

/-- SHA-256 padding: append `0x80`, zeros up to 56 mod 64, then the
bit length, big-endian over 8 bytes. -/
def sha256pad (msg : List Nat) : List Nat :=
  let l := msg.length
  let k := (119 - (l % 64)) % 64
  msg ++ [0x80] ++ List.replicate k 0 ++ toBE64 (8 * l)

/-- Group bytes 4 at a time into big-endian 32-bit words. -/
def bytesToWords : List Nat → List Nat
  | a :: b :: c :: d :: rest =>
      (a * 16777216 + b * 65536 + c * 256 + d) :: bytesToWords rest
  | _ => []

/-- Extend the 16 words of one block to the 64-entry message schedule. -/
def schedule (block : List Nat) : List Nat :=
  (List.range 48).foldl
    (fun w i =>
      let t := i + 16
      w ++ [w32 (ssig1 (w.getD (t - 2) 0) + w.getD (t - 7) 0 +
                 ssig0 (w.getD (t - 15) 0) + w.getD (t - 16) 0)])
    (bytesToWords block)

/-- One round of the SHA-256 compression function. -/
def compressStep (k w : Nat) (st : List Nat) : List Nat :=
  match st with
  | [a, b, c, d, e, f, g, h] =>
      let ch := (e &&& f) ^^^ ((4294967295 ^^^ e) &&& g)
      let maj := (a &&& b) ^^^ (a &&& c) ^^^ (b &&& c)
      let t1 := w32 (h + bsig1 e + ch + k + w)
      let t2 := w32 (bsig0 a + maj)
      [w32 (t1 + t2), a, b, c, w32 (d + t1), e, f, g]
  | st => st

/-- Compress one 64-byte block into the running hash state. -/
def compressBlock (h : List Nat) (block : List Nat) : List Nat :=
  let st := (List.zip sha256K (schedule block)).foldl
    (fun st kw => compressStep kw.1 kw.2 st) h
  (List.zip h st).map (fun p => w32 (p.1 + p.2))

/-- Split a byte list into 64-byte chunks. -/
def chunks64 (l : List Nat) : List (List Nat) :=
  if l.isEmpty then []
  else l.take 64 :: chunks64 (l.drop 64)
termination_by l.length
decreasing_by
  simp only [List.length_drop]
  rename_i h
  have : l.length ≠ 0 := by
    intro h0
    exact h (List.isEmpty_iff_length_eq_zero.mpr h0)
  omega

/-- SHA-256 of a byte sequence, producing the 32 digest bytes. -/
def sha256 (msg : List Nat) : List Nat :=
  let final := (chunks64 (sha256pad msg)).foldl compressBlock sha256H0
  (final.map (fun wd =>
    [(wd >>> 24) % 256, (wd >>> 16) % 256, (wd >>> 8) % 256, wd % 256])).flatten

/-- A single lowercase hexadecimal digit. -/
def hexDigit (n : Nat) : Char :=
  if n < 10 then Char.ofNat (48 + n) else Char.ofNat (87 + n)

/-- `data_encoding::HEXLOWER.encode`: lowercase hexadecimal text of a
byte sequence. -/
def hexLower (bytes : List Nat) : String :=
  String.mk (bytes.foldr (fun b acc => hexDigit (b / 16) :: hexDigit (b % 16) :: acc) [])

/-- ASCII lowercasing, `str::to_lowercase` restricted to the ASCII range
the naming convention uses, written over the character list so it
evaluates by kernel reduction. -/
def toLowerAscii (s : String) : String := String.mk (s.data.map Char.toLower)

/-- `str::ends_with`, written over the character list. -/
def endsWithStr (s t : String) : Bool := t.data.isSuffixOf s.data

/-- `str::starts_with` for a single-character pattern, written over the
character list. -/
def startsWithChar (s : String) (c : Char) : Bool :=
  match s.data with
  | c2 :: _ => c2 = c
  | [] => false

/-- The characters before the first dot. -/
def takeUntilDot : List Char → List Char
  | [] => []
  | c :: rest => if c = '.' then [] else c :: takeUntilDot rest

/-- A file-descriptor entry of the metadata document.
Modelled from the spec: the document type `crate::validate::format::Metadata`
is not among the provided sources; the spec describes `properties.files` as an
ordered sequence of records each holding a `uri` and a `type`. -/
structure FileEntry where
  uri : String
  type : String
deriving DecidableEq, Repr

/-- The `properties` object of the metadata document.
Modelled from the spec: holds the ordered `files` list. -/
structure Properties where
  files : List FileEntry
deriving DecidableEq, Repr

/-- The metadata document.
Modelled from the spec: `crate::validate::format::Metadata` is not among the
provided sources; the spec gives it a `name`, an `image` URI, an optional
`animation_url` and the `properties.files` list, which is exactly the shape
`get_asset_pairs` and `get_updated_metadata` rely on. -/
structure Metadata where
  name : String
  image : String
  animation_url : Option String
  properties : Properties
deriving DecidableEq, Repr

/-- What the model knows about one file on disk: its raw bytes (consumed by
the hasher) and the outcome of parsing it as a `Metadata` document with
`serde_json::from_reader` (`none` models a parse failure; the parser itself
is external to the repository and is treated as an oracle per file). -/
structure FileInfo where
  bytes : List Nat
  parsed : Option Metadata
deriving DecidableEq, Repr

/-- The filesystem as seen through `File::open`: `none` models a path that
cannot be opened. -/
def FS : Type := String → Option FileInfo

/-- An I/O failure raised while opening or reading a file. -/
inductive IOError where
  | cannotOpen (path : String)
deriving DecidableEq, Repr

/-- The chunked reading loop of `encode`: read up to 1024 bytes at a time,
feeding each chunk to the digest context (modelled as the list of bytes fed
so far), until `read` returns 0. -/
def encodeLoop (ctx : List Nat) (remaining : List Nat) : List Nat :=
  if remaining.isEmpty then ctx
  else encodeLoop (ctx ++ remaining.take 1024) (remaining.drop 1024)
termination_by remaining.length
decreasing_by
  simp only [List.length_drop]
  rename_i h
  have : remaining.length ≠ 0 := by
    intro h0
    exact h (List.isEmpty_iff_length_eq_zero.mpr h0)
  omega

/-- `encode` of `src/upload/assets.rs`: open the file, stream it through
SHA-256 in 1024-byte chunks, and render the digest in lowercase hex. -/
def encode (fs : FS) (file : String) : RunResult IOError String :=
  match fs file with
  | none => .err (.cannotOpen file)
  | some fi => .ok (hexLower (sha256 (encodeLoop [] fi.bytes)))

/-- One entry yielded by `fs::read_dir`: `name` is the result of
`file_name().to_str()` (`none` models a name that is not valid unicode) and
`meta` the result of `entry.metadata()` (`none` models a failed lookup,
`some b` a successful one with `is_file() = b`). -/
structure DirEntry where
  name : Option String
  meta : Option Bool
deriving DecidableEq, Repr

/-- The result of `fs::read_dir` on the assets directory: `none` models an
unreadable directory; inside the listing, `none` models an entry the
iterator yielded as `Err` (dropped by `filter_map(|entry| entry.ok())`). -/
def ReadDir : Type := Option (List (Option DirEntry))

/-- The error of `count_files`: reading the assets directory failed. -/
inductive CountError where
  | readDirFailed
deriving DecidableEq, Repr

/-- The filter closure of `count_files` applied along the entry list: the
filename conversion and the metadata lookup are both `expect`ed (a failure
panics), and `&&` short-circuits, so the metadata of a hidden entry is
never consulted. -/
def countStep (e : DirEntry) (r : RunResult CountError (List DirEntry)) :
    RunResult CountError (List DirEntry) :=
  match e.name with
  | none => .panic "Failed to convert file name to valid unicode."
  | some n =>
    if startsWithChar n '.' then r
    else
      match e.meta with
      | none => .panic "Failed to retrieve metadata from file"
      | some isFile =>
        match r with
        | .ok l => .ok (if isFile then e :: l else l)
        | .err er => .err er
        | .panic m => .panic m

def countLoop : List DirEntry → RunResult CountError (List DirEntry)
  | [] => .ok []
  | e :: rest => countStep e (countLoop rest)

/-- `count_files` of `src/upload/assets.rs`: list the assets directory
(failure becomes the "Failed to read assets directory" error), drop entries
the iterator could not yield, and keep the regular, non-hidden files. -/
def count_files (rd : ReadDir) : RunResult CountError (List DirEntry) :=
  match rd with
  | none => .err .readDirFailed
  | some entries => countLoop (entries.filterMap id)

/-- The filename of an entry surviving `count_files` (such an entry always
has a valid unicode name; `get_asset_pairs` re-extracts it with `unwrap`). -/
def entryName (e : DirEntry) : String := e.name.getD ""

/-- The central record built by reconciliation (`AssetPair` in the source). -/
structure AssetPair where
  name : String
  metadata : String
  metadata_hash : String
  media : String
  media_hash : String
  animation : Option String
  animation_hash : Option String
deriving DecidableEq, Repr

/-- The upload-cache record.
Modelled from the spec: `CacheItem` lives in `crate::common`, which is not
among the provided sources; its fields are the ones `into_cache_item`
populates and the spec's cache record describes (name, media hash/link,
metadata hash/link, an uploaded flag called `on_chain`, and the optional
animation hash/link). -/
structure CacheItem where
  name : String
  media_hash : String
  media_link : String
  metadata_hash : String
  metadata_link : String
  on_chain : Bool
  animation_hash : Option String
  animation_link : Option String
deriving DecidableEq, Repr

/-- `AssetPair::into_cache_item` of `src/upload/assets.rs`. -/
def AssetPair.into_cache_item (self : AssetPair) : CacheItem :=
  { name := self.name
    media_hash := self.media_hash
    media_link := ""
    metadata_hash := self.metadata_hash
    metadata_link := ""
    on_chain := false
    animation_hash := self.animation_hash
    animation_link := self.animation }

/-- Rust `str::parse::<usize>`: an optional leading `+` sign followed by one
or more ASCII digits, whose value must fit the 64-bit `usize`; anything else
(including the empty string or an overflow) is a parse error. -/
def parseUsize (s : String) : Option Nat :=
  let t := match s.data with
    | c :: rest => if c = '+' then rest else s.data
    | [] => s.data
  if t.isEmpty then none
  else if t.all (fun c => c.isDigit) then
    let v := t.foldl (fun a c => a * 10 + (c.toNat - 48)) 0
    if v < 18446744073709551616 then some v else none
  else none

/-- `metadata_filename.split(.).next().unwrap()`: the text before the
first dot (the whole string when there is none). -/
def stemOf (s : String) : String := String.mk (takeUntilDot s.data)

/-- The stem as it behaves inside the interpolated pattern.  Stems
reaching the regex build have passed `parse::<usize>`, so they are an
optional `+` sign followed by digits.  The regex crate accepts a leading
`+` in the pattern: it repeats the zero-width `^` assertion, so the
built pattern is equivalent to one anchored on the digit part alone
(checked against the regex crate: the pattern built from stem `+3`
matches `3.png` and `3.PNG`, and does not match `+3.png`).
`effectiveStem` strips that one leading sign. -/
def effectiveStem (s : String) : String :=
  match s.data with
  | c :: rest => if c = '+' then String.mk rest else s
  | [] => s

/-- The media extension alternation of the image pattern. -/
def mediaExts : List String := ["jpg", "gif", "png"]

/-- The animation extension alternation of the animation pattern. -/
def animationExts : List String := ["mp4", "mov", "webm"]

/-- Semantics of the anchored case-insensitive pattern built by
interpolating the raw stem, for the stems the loop can build it from (an
optional `+` sign followed by digits): the candidate equals, ignoring
ASCII case, the stem's digit part followed by a dot and one of the
listed extensions. -/
def extMatch (exts : List String) (stem p : String) : Bool :=
  exts.any (fun ext => toLowerAscii p = toLowerAscii (effectiveStem stem) ++ "." ++ ext)

/-- The scanned filenames whose lowercased name ends in `.json`
(the metadata subset selected by `get_asset_pairs`). -/
def metadataFiles (paths : List String) : List String :=
  paths.filter (fun p => endsWithStr (toLowerAscii p) ".json")

/-- The scanned filenames matched by the media pattern of one metadata
filename's stem. -/
def mediaFilesFor (paths : List String) (mf : String) : List String :=
  paths.filter (extMatch mediaExts (stemOf mf))

/-- The scanned filenames matched by the animation pattern of one metadata
filename's stem. -/
def animationFilesFor (paths : List String) (mf : String) : List String :=
  paths.filter (extMatch animationExts (stemOf mf))

/-- The metadata filenames whose stem parses to a given index. -/
def metadataFilesForIndex (paths : List String) (idx : Nat) : List String :=
  (metadataFiles paths).filter (fun p => parseUsize (stemOf p) = some idx)

/-- `Path::new(dir).join(name)` rendered back to a string. -/
def joinPath (dir name : String) : String := dir ++ "/" ++ name

/-- The error cases `get_asset_pairs` can return. -/
inductive AssetError where
  | readDirFailed
  | invalidIndex (filename : String)
  | missingMedia (index : Nat)
  | ioError (path : String)
  | parseError (path : String)
deriving DecidableEq, Repr

/-- The body of the `for metadata_filename in metadata_filenames` loop of
`get_asset_pairs`, for one metadata filename: parse the stem as an index
(else return the invalid-index error naming the filename), build the media
regex from the raw stem (every stem that passed usize parsing yields a
pattern the regex crate accepts, a leading `+` merely repeating the `^`
anchor), require at least one media match (else return the missing-media
error carrying the parsed index), match the animation pattern, open and
parse the metadata file, hash the animation file (when present), the
metadata file and the media file, and assemble the `AssetPair` keyed by
the index. -/
def processOne (assets_dir : String) (fs : FS) (paths : List String)
    (metadata_filename : String) : RunResult AssetError (Nat × AssetPair) :=
  let i := stemOf metadata_filename
  match parseUsize i with
  | none => .err (.invalidIndex metadata_filename)
  | some idx =>
    match mediaFilesFor paths metadata_filename with
    | [] => .err (.missingMedia idx)
    | img_filename :: _ =>
      let metadata_filepath := joinPath assets_dir metadata_filename
      match fs metadata_filepath with
      | none => .err (.ioError metadata_filepath)
      | some mfile =>
        match mfile.parsed with
        | none => .err (.parseError metadata_filepath)
        | some metadata =>
          let img_filepath := joinPath assets_dir img_filename
          let animation_filename :=
            (animationFilesFor paths metadata_filename).head?.map
              (joinPath assets_dir)
          let animHash : RunResult AssetError (Option String) :=
            match animation_filename with
            | none => .ok none
            | some af =>
              match encode fs af with
              | .ok h => .ok (some h)
              | .err (.cannotOpen p) => .err (.ioError p)
              | .panic m => .panic m
          match animHash with
          | .err e => .err e
          | .panic m => .panic m
          | .ok animation_hash =>
            match encode fs metadata_filepath with
            | .err (.cannotOpen p) => .err (.ioError p)
            | .panic m => .panic m
            | .ok metadata_hash =>
              match encode fs img_filepath with
              | .err (.cannotOpen p) => .err (.ioError p)
              | .panic m => .panic m
              | .ok media_hash =>
                .ok (idx,
                  { name := metadata.name
                    metadata := metadata_filepath
                    metadata_hash := metadata_hash
                    media := img_filepath
                    media_hash := media_hash
                    animation := animation_filename
                    animation_hash := animation_hash })

/-- `HashMap::insert`: bind `k` to `v`, replacing any previous binding. -/
def insertPair (m : List (Nat × AssetPair)) (k : Nat) (v : AssetPair) :
    List (Nat × AssetPair) :=
  m.filter (fun p => p.1 ≠ k) ++ [(k, v)]

/-- `HashMap` lookup on the association-list model of the mapping. -/
def lookupPair (m : List (Nat × AssetPair)) (k : Nat) : Option AssetPair :=
  (m.find? (fun p => p.1 = k)).map Prod.snd

/-- The `for` loop of `get_asset_pairs` over the metadata filenames,
threading the accumulated mapping; the first `Err` or panic aborts the
whole pass. -/
def processPairs (assets_dir : String) (fs : FS) (paths : List String) :
    List String → List (Nat × AssetPair) →
    RunResult AssetError (List (Nat × AssetPair))
  | [], acc => .ok acc
  | mf :: rest, acc =>
    match processOne assets_dir fs paths mf with
    | .err e => .err e
    | .panic m => .panic m
    | .ok (idx, pair) =>
      processPairs assets_dir fs paths rest (insertPair acc idx pair)

/-- `get_asset_pairs` of `src/upload/assets.rs`: scan the directory, take
the filenames, select the metadata filenames (lowercased `.json` suffix),
and run the reconciliation loop starting from the empty mapping. -/
def get_asset_pairs (rd : ReadDir) (fs : FS) (assets_dir : String) :
    RunResult AssetError (List (Nat × AssetPair)) :=
  match count_files rd with
  | .err _ => .err .readDirFailed
  | .panic m => .panic m
  | .ok filtered_files =>
    let paths := filtered_files.map entryName
    let metadata_filenames := metadataFiles paths
    processPairs assets_dir fs paths metadata_filenames []

/-- Overwrite the `uri` of the file entry at one position, leaving the
rest of the list unchanged (callers check the bound first). -/
def setEntryUri : List FileEntry → Nat → String → List FileEntry
  | [], _, _ => []
  | f :: rest, 0, link => { f with uri := link } :: rest
  | f :: rest, i + 1, link => f :: setEntryUri rest i link

/-- `get_updated_metadata` of `src/upload/assets.rs`, up to but not
including serialization: open and reparse the metadata file, overwrite the
`image` field, write the media link into file entry 0 (an unguarded `Vec`
index: an empty list panics), and, when an animation link is supplied,
overwrite `animation_url` and write the link into file entry 1 (again an
unguarded index: a list shorter than 2 panics). -/
def get_updated_metadata_doc (fs : FS) (metadata_file media_link : String)
    (animation_link : Option String) : RunResult AssetError Metadata :=
  match fs metadata_file with
  | none => .err (.ioError metadata_file)
  | some mfile =>
    match mfile.parsed with
    | none => .err (.parseError metadata_file)
    | some metadata0 =>
      let metadata1 := { metadata0 with image := media_link }
      if 0 < metadata1.properties.files.length then
        let metadata2 := { metadata1 with
          properties := ⟨setEntryUri metadata1.properties.files 0 media_link⟩ }
        match animation_link with
        | none => .ok metadata2
        | some al =>
          let metadata3 := { metadata2 with animation_url := some al }
          if 1 < metadata3.properties.files.length then
            .ok { metadata3 with
              properties := ⟨setEntryUri metadata3.properties.files 1 al⟩ }
          else .panic "index out of bounds"
      else .panic "index out of bounds"

/-- Render an optional string field the way the serializer does. -/
def serializeOpt : Option String → String
  | none => "null"
  | some s => "\"" ++ s ++ "\""

/-- Render the file-entry list. -/
def serializeFiles : List FileEntry → String
  | [] => ""
  | [f] => "\x7b\"uri\":\"" ++ f.uri ++ "\",\"type\":\"" ++ f.type ++ "\"\x7d"
  | f :: rest =>
      "\x7b\"uri\":\"" ++ f.uri ++ "\",\"type\":\"" ++ f.type ++ "\"\x7d," ++
      serializeFiles rest

/-- Modelled from the spec: `serde_json::to_string` on the externally
defined metadata document, rendered as a canonical JSON text (string
escaping elided); the rewriter returns this text instead of writing the
file back to disk. -/
def serializeMetadata (m : Metadata) : String :=
  "\x7b\"name\":\"" ++ m.name ++ "\",\"image\":\"" ++ m.image ++
  "\",\"animation_url\":" ++ serializeOpt m.animation_url ++
  ",\"properties\":\x7b\"files\":[" ++ serializeFiles m.properties.files ++
  "]\x7d\x7d"

/-- `get_updated_metadata` of `src/upload/assets.rs`: the updated document,
serialized to text. -/
def get_updated_metadata (fs : FS) (metadata_file media_link : String)
    (animation_link : Option String) : RunResult AssetError String :=
  match get_updated_metadata_doc fs metadata_file media_link animation_link with
  | .ok m => .ok (serializeMetadata m)
  | .err e => .err e
  | .panic m => .panic m

/-- A well-formed two-entry metadata document used as concrete test data. -/
def exMeta : Metadata := ⟨"Foo", "img", none, ⟨[⟨"u", "t"⟩, ⟨"v", "w"⟩]⟩⟩

/-- A filesystem on which every path opens, hashes and parses. -/
def exFSgood : FS := fun _ => some ⟨[], some exMeta⟩

/-- A fully conventional one-index directory. -/
def exDirW : ReadDir :=
  some [some ⟨some "0.json", some true⟩, some ⟨some "0.png", some true⟩]

/-- The entries scanned from `exDirW`. -/
def exEntriesW : List DirEntry := [⟨some "0.json", some true⟩, ⟨some "0.png", some true⟩]

/-- The filenames scanned from `exDirW`. -/
def exPathsW : List String := ["0.json", "0.png"]

/-- A directory where index 0 lacks media and a later metadata filename has
a non-numeric stem. -/
def exDirC3 : ReadDir :=
  some [some ⟨some "0.json", some true⟩, some ⟨some "abc.json", some true⟩]

/-- The filenames scanned from `exDirC3`. -/
def exPathsC3 : List String := ["0.json", "abc.json"]

/-- A directory holding a single non-numeric metadata filename. -/
def exDirC3W : ReadDir := some [some ⟨some "abc.json", some true⟩]

/-- The filenames scanned from `exDirC3W`. -/
def exPathsC3W : List String := ["abc.json"]

/-- A directory with two metadata files and no media at all. -/
def exDirC4 : ReadDir :=
  some [some ⟨some "0.json", some true⟩, some ⟨some "3.json", some true⟩]

/-- The filenames scanned from `exDirC4`. -/
def exPathsC4 : List String := ["0.json", "3.json"]

/-- A directory holding a single metadata file with no media. -/
def exDirC4W : ReadDir := some [some ⟨some "5.json", some true⟩]

/-- A concrete asset pair carrying an animation path. -/
def exPairC2 : AssetPair :=
  ⟨"N", "assets/0.json", "mh", "assets/0.png", "ih", some "assets/0.mp4", some "ah"⟩

/-- A parseable metadata document with an empty file-entry list. -/
def exMetaEmpty : Metadata := ⟨"n", "old", none, ⟨[]⟩⟩

/-- A filesystem serving `exMetaEmpty` everywhere. -/
def exFSempty : FS := fun _ => some ⟨[], some exMetaEmpty⟩

/-- A parseable metadata document with exactly one file entry. -/
def exMetaOne : Metadata := ⟨"n", "old", none, ⟨[⟨"u", "t"⟩]⟩⟩

/-- A filesystem serving `exMetaOne` everywhere. -/
def exFSone : FS := fun _ => some ⟨[], some exMetaOne⟩

/-- A directory whose only metadata stem is "+3". -/
def exDirC10 : ReadDir := some [some ⟨some "+3.json", some true⟩]

/-- A directory holding "+3.json" together with the media file "3.png"
that its effectively-anchored pattern matches. -/
def exDirC10b : ReadDir :=
  some [some ⟨some "+3.json", some true⟩, some ⟨some "3.png", some true⟩]

/-- The filenames scanned from `exDirC10b`. -/
def exPathsC10b : List String := ["+3.json", "3.png"]

/-- A directory whose single entry is hidden and has a failing metadata
lookup. -/
def exDirC8 : ReadDir := some [some ⟨some ".DS_Store", none⟩]

/-- A small concrete file. -/
def exFI : FileInfo := ⟨[97, 98, 99], none⟩

/-- A filesystem where "c" cannot be opened and every other path holds
`exFI`. -/
def exFS7 : FS := fun p => if p = "c" then none else some exFI

theorem encodeLoop_eq (ctx bs : List Nat) : encodeLoop ctx bs = ctx ++ bs := by
  rw [encodeLoop]
  by_cases h : bs.isEmpty
  · simp [h, List.isEmpty_iff.mp h]
  · simp only [h, if_false]
    rw [encodeLoop_eq (ctx ++ bs.take 1024) (bs.drop 1024)]
    rw [List.append_assoc, List.take_append_drop]
    simp
termination_by bs.length
decreasing_by
  simp only [List.length_drop]
  have : bs.length ≠ 0 := fun h0 => h (List.isEmpty_iff_length_eq_zero.mpr h0)
  omega

theorem encode_of_open (fs : FS) (p : String) (fi : FileInfo) (h : fs p = some fi) :
    encode fs p = .ok (hexLower (sha256 fi.bytes)) := by
  simp [encode, h, encodeLoop_eq]

theorem lookup_insert_self (m : List (Nat × AssetPair)) (k : Nat) (v : AssetPair) :
    lookupPair (insertPair m k v) k = some v := by
  unfold lookupPair insertPair
  rw [List.find?_append]
  have hnone : (m.filter (fun p => p.1 ≠ k)).find? (fun p => p.1 = k) = none := by
    rw [List.find?_eq_none]
    intro x hx
    have := List.of_mem_filter hx
    simpa using this
  simp [hnone]

theorem find_filter_ne (k q : Nat) (h : q ≠ k) (xs : List (Nat × AssetPair)) :
    (xs.filter (fun p => p.1 ≠ k)).find? (fun p => p.1 = q) =
      xs.find? (fun p => p.1 = q) := by
  induction xs with
  | nil => rfl
  | cons x xs ih =>
    rw [List.filter_cons]
    by_cases hk : x.1 = k
    · have hq : ¬(x.1 = q) := fun hx => h (by rw [← hx, hk])
      rw [if_neg (by simp [hk])]
      rw [List.find?_cons_of_neg _ (by simp [hq])]
      exact ih
    · rw [if_pos (by simp [hk])]
      by_cases hq : x.1 = q
      · rw [List.find?_cons_of_pos _ (by simp [hq]),
          List.find?_cons_of_pos _ (by simp [hq])]
      · rw [List.find?_cons_of_neg _ (by simp [hq]),
          List.find?_cons_of_neg _ (by simp [hq])]
        exact ih

theorem lookup_insert_ne (m : List (Nat × AssetPair)) (k q : Nat) (v : AssetPair)
    (h : q ≠ k) : lookupPair (insertPair m k v) q = lookupPair m q := by
  unfold lookupPair insertPair
  rw [List.find?_append, find_filter_ne k q h m]
  cases hf : m.find? (fun p => p.1 = q) with
  | some x => simp
  | none =>
    have hkq : ¬(k = q) := fun hh => h hh.symm
    simp [List.find?, hkq]

theorem processPairs_ok_mem (d : String) (fs : FS) (paths : List String)
    (L : List String) (acc m : List (Nat × AssetPair))
    (h : processPairs d fs paths L acc = .ok m) :
    ∀ mf ∈ L, ∃ iv, processOne d fs paths mf = .ok iv := by
  induction L generalizing acc with
  | nil => simp
  | cons mf rest ih =>
    intro mf2 hmem
    rw [processPairs] at h
    cases hp : processOne d fs paths mf with
    | err e => rw [hp] at h; exact absurd h (by simp)
    | panic s => rw [hp] at h; exact absurd h (by simp)
    | ok iv =>
      rw [hp] at h
      rcases List.mem_cons.mp hmem with rfl | hmem2
      · exact ⟨iv, hp⟩
      · exact ih (insertPair acc iv.1 iv.2) h mf2 hmem2

theorem processPairs_first_err (d : String) (fs : FS) (paths : List String)
    (pre : List String) (mf : String) (rest : List String)
    (acc : List (Nat × AssetPair)) (e : AssetError)
    (hpre : ∀ m2 ∈ pre, ∃ iv, processOne d fs paths m2 = .ok iv)
    (hmf : processOne d fs paths mf = .err e) :
    processPairs d fs paths (pre ++ mf :: rest) acc = .err e := by
  induction pre generalizing acc with
  | nil => simp [processPairs, hmf]
  | cons p pre2 ih =>
    obtain ⟨iv, hp⟩ := hpre p (by simp)
    rw [List.cons_append, processPairs, hp]
    exact ih (insertPair acc iv.1 iv.2)
      (fun m2 hm2 => hpre m2 (List.mem_cons_of_mem _ hm2))

theorem processPairs_ok_of_all (d : String) (fs : FS) (paths : List String)
    (L : List String) (acc : List (Nat × AssetPair))
    (hok : ∀ mf ∈ L, ∃ iv, processOne d fs paths mf = .ok iv) :
    ∃ m, processPairs d fs paths L acc = .ok m := by
  induction L generalizing acc with
  | nil => exact ⟨acc, rfl⟩
  | cons mf rest ih =>
    obtain ⟨iv, hp⟩ := hok mf (by simp)
    rw [processPairs, hp]
    exact ih (insertPair acc iv.1 iv.2)
      (fun m2 hm2 => hok m2 (List.mem_cons_of_mem _ hm2))

theorem processOne_invalid (d : String) (fs : FS) (paths : List String) (mf : String)
    (h : parseUsize (stemOf mf) = none) :
    processOne d fs paths mf = .err (.invalidIndex mf) := by
  rw [processOne.eq_def]
  simp only
  rw [h]

theorem processOne_missing (d : String) (fs : FS) (paths : List String) (mf : String)
    (idx : Nat) (hp : parseUsize (stemOf mf) = some idx)
    (hm : mediaFilesFor paths mf = []) :
    processOne d fs paths mf = .err (.missingMedia idx) := by
  rw [processOne.eq_def]
  simp only
  rw [hp, hm]

theorem processOne_ok_idx (d : String) (fs : FS) (paths : List String) (mf : String)
    (idx : Nat) (pair : AssetPair)
    (h : processOne d fs paths mf = .ok (idx, pair)) :
    parseUsize (stemOf mf) = some idx := by
  rw [processOne.eq_def] at h
  simp only at h
  split at h
  · simp at h
  · rename_i idx0 hparse
    split at h
    · simp at h
    · split at h
      · simp at h
      · split at h
        · simp at h
        · split at h
          · simp at h
          · simp at h
          · split at h
            · simp at h
            · simp at h
            · split at h
              · simp at h
              · simp at h
              · simp only [RunResult.ok.injEq, Prod.mk.injEq] at h
                rw [← h.1]
                exact hparse

theorem encode_no_panic (fs : FS) (p : String) (msg : String) :
    encode fs p ≠ .panic msg := by
  intro h
  cases hf : fs p with
  | none => rw [encode, hf] at h; exact RunResult.noConfusion h
  | some fi => rw [encode, hf] at h; exact RunResult.noConfusion h

theorem processOne_no_panic (d : String) (fs : FS) (paths : List String)
    (mf : String) (msg : String) :
    processOne d fs paths mf ≠ .panic msg := by
  intro h
  rw [processOne.eq_def] at h
  simp only at h
  split at h
  · simp at h
  · split at h
    · simp at h
    · split at h
      · simp at h
      · split at h
        · simp at h
        · split at h
          · simp at h
          · rename_i m0 hanim0
            split at hanim0
            · simp at hanim0
            · rename_i af haf
              split at hanim0
              · simp at hanim0
              · simp at hanim0
              · rename_i m1 henc
                exact encode_no_panic fs af m1 henc
          · split at h
            · simp at h
            · rename_i m1 henc
              exact encode_no_panic fs _ m1 henc
            · split at h
              · simp at h
              · rename_i m1 henc
                exact encode_no_panic fs _ m1 henc
              · simp at h

theorem processOne_eval (d : String) (fs : FS) (paths : List String) (mf : String)
    (idx : Nat) (img : String) (imgs : List String) (mfi : FileInfo) (md : Metadata)
    (hparse : parseUsize (stemOf mf) = some idx)
    (hmedia : mediaFilesFor paths mf = img :: imgs)
    (hopen : fs (joinPath d mf) = some mfi)
    (hparsed : mfi.parsed = some md)
    (hfs : ∀ p, ∃ fi, fs p = some fi) :
    ∃ pair, processOne d fs paths mf = .ok (idx, pair) ∧
      pair.name = md.name ∧
      pair.metadata = joinPath d mf ∧
      pair.media = joinPath d img ∧
      pair.animation = (animationFilesFor paths mf).head?.map (joinPath d) ∧
      (animationFilesFor paths mf = [] → pair.animation_hash = none) := by
  obtain ⟨fi2, h2⟩ := hfs (joinPath d img)
  cases hanim : (animationFilesFor paths mf).head? with
  | none =>
    refine ⟨⟨md.name, joinPath d mf, hexLower (sha256 mfi.bytes), joinPath d img,
      hexLower (sha256 fi2.bytes), none, none⟩, ?_, rfl, rfl, rfl, by simp [hanim],
      fun _ => rfl⟩
    rw [processOne.eq_def]
    simp only [hparse, hmedia, hopen, hparsed, hanim,
      Option.map_none', encode_of_open fs (joinPath d mf) mfi hopen,
      encode_of_open fs (joinPath d img) fi2 h2]
  | some af =>
    obtain ⟨fi3, h3⟩ := hfs (joinPath d af)
    refine ⟨⟨md.name, joinPath d mf, hexLower (sha256 mfi.bytes), joinPath d img,
      hexLower (sha256 fi2.bytes), some (joinPath d af),
      some (hexLower (sha256 fi3.bytes))⟩, ?_, rfl, rfl, rfl, by simp [hanim],
      fun h0 => by rw [h0] at hanim; exact absurd hanim (by simp)⟩
    rw [processOne.eq_def]
    simp only [hparse, hmedia, hopen, hparsed, hanim,
      Option.map_some', encode_of_open fs (joinPath d mf) mfi hopen,
      encode_of_open fs (joinPath d img) fi2 h2,
      encode_of_open fs (joinPath d af) fi3 h3]

theorem processPairs_untouched (d : String) (fs : FS) (paths : List String)
    (L : List String) (acc m : List (Nat × AssetPair)) (k : Nat)
    (h : processPairs d fs paths L acc = .ok m)
    (hk : ∀ mf ∈ L, parseUsize (stemOf mf) ≠ some k) :
    lookupPair m k = lookupPair acc k := by
  induction L generalizing acc with
  | nil =>
    rw [processPairs] at h
    simp only [RunResult.ok.injEq] at h
    rw [h]
  | cons mf rest ih =>
    rw [processPairs] at h
    cases hp : processOne d fs paths mf with
    | err e => rw [hp] at h; simp at h
    | panic s => rw [hp] at h; simp at h
    | ok iv =>
      rw [hp] at h
      have hidx := processOne_ok_idx d fs paths mf iv.1 iv.2 (by rw [hp])
      have hne : k ≠ iv.1 := by
        intro he
        exact hk mf (by simp) (by rw [hidx, he])
      rw [ih (insertPair acc iv.1 iv.2) h
        (fun m2 hm2 => hk m2 (List.mem_cons_of_mem _ hm2))]
      exact lookup_insert_ne acc iv.1 k iv.2 hne

theorem processPairs_found (d : String) (fs : FS) (paths : List String)
    (pre : List String) (mf : String) (rest : List String)
    (acc m : List (Nat × AssetPair)) (idx : Nat) (pair : AssetPair)
    (h : processPairs d fs paths (pre ++ mf :: rest) acc = .ok m)
    (hone : processOne d fs paths mf = .ok (idx, pair))
    (hrest : ∀ m2 ∈ rest, parseUsize (stemOf m2) ≠ some idx) :
    lookupPair m idx = some pair := by
  induction pre generalizing acc with
  | nil =>
    rw [List.nil_append, processPairs, hone] at h
    rw [processPairs_untouched d fs paths rest _ m idx h hrest]
    exact lookup_insert_self acc idx pair
  | cons p pre2 ih =>
    rw [List.cons_append, processPairs] at h
    cases hp : processOne d fs paths p with
    | err e => rw [hp] at h; simp at h
    | panic s => rw [hp] at h; simp at h
    | ok iv => rw [hp] at h; exact ih (insertPair acc iv.1 iv.2) h

theorem get_asset_pairs_eq (rd : ReadDir) (fs : FS) (d : String)
    (entries : List DirEntry) (h : count_files rd = .ok entries) :
    get_asset_pairs rd fs d =
      processPairs d fs (entries.map entryName)
        (metadataFiles (entries.map entryName)) [] := by
  simp [get_asset_pairs, h]

theorem lookupPair_nil (k : Nat) : lookupPair [] k = none := rfl

/-- Claim C2, counterexample: on a pair carrying an animation path, the
cache record produced by `into_cache_item` does not initialize the
animation link to the empty value; it receives the pair's animation file
path, so the claim that every link field starts empty is false. -/
theorem C2_counterexample :
    exPairC2.animation = some "assets/0.mp4" ∧
    exPairC2.into_cache_item.media_link = "" ∧
    exPairC2.into_cache_item.metadata_link = "" ∧
    exPairC2.into_cache_item.on_chain = false ∧
    exPairC2.into_cache_item.animation_link = some "assets/0.mp4" ∧
    exPairC2.into_cache_item.animation_link ≠ none := by
  refine ⟨rfl, rfl, rfl, rfl, rfl, ?_⟩
  intro h
  exact Option.noConfusion h

/-- Claim C2, amended: `into_cache_item` copies the name and the
metadata/media/animation hashes, initializes the media link and the
metadata link to the empty string and the uploaded flag (`on_chain`) to
false, and sets the animation link to the pair's animation file path
rather than to an empty value. -/
theorem C2_into_cache_item (p : AssetPair) :
    p.into_cache_item =
      ⟨p.name, p.media_hash, "", p.metadata_hash, "", false,
        p.animation_hash, p.animation⟩ := rfl

/-- Claim C7: for every file the filesystem can open, `encode` streams the
bytes through the 1024-byte chunk loop and returns the lowercase
hexadecimal SHA-256 digest of the full content; two openable files with
identical bytes get identical digests, and an unopenable file yields the
I/O error carrying its path. -/
theorem C7_encode_sha256 (fs : FS) (p1 p2 q : String) (f1 f2 : FileInfo)
    (h1 : fs p1 = some f1) (h2 : fs p2 = some f2)
    (heq : f1.bytes = f2.bytes) (hq : fs q = none) :
    encode fs p1 = .ok (hexLower (sha256 f1.bytes)) ∧
    encode fs p1 = encode fs p2 ∧
    encode fs q = .err (.cannotOpen q) := by
  refine ⟨encode_of_open fs p1 f1 h1, ?_, by simp [encode, hq]⟩
  rw [encode_of_open fs p1 f1 h1, encode_of_open fs p2 f2 h2, heq]

/-- Witness for C7 at a concrete filesystem: paths "a" and "b" hold the
same three bytes, path "c" cannot be opened. -/
theorem C7_encode_sha256_witness :
    exFS7 "a" = some exFI ∧ exFS7 "b" = some exFI ∧ exFS7 "c" = none ∧
    (encode exFS7 "a" = .ok (hexLower (sha256 exFI.bytes)) ∧
     encode exFS7 "a" = encode exFS7 "b" ∧
     encode exFS7 "c" = .err (.cannotOpen "c")) :=
  ⟨by decide, by decide, by decide,
    C7_encode_sha256 exFS7 "a" "b" "c" exFI exFI (by decide) (by decide) rfl
      (by decide)⟩

/-- Claim C9: on a parseable metadata document whose `properties.files`
list is empty, `get_updated_metadata` performs the unguarded positional
write to entry 0 and panics with an index-out-of-bounds abort instead of
returning an error, even when no animation link is supplied. -/
theorem C9_entry0_panic (fs : FS) (mf ml : String) (fi : FileInfo) (md : Metadata)
    (hopen : fs mf = some fi) (hparsed : fi.parsed = some md)
    (hempty : md.properties.files = []) :
    get_updated_metadata_doc fs mf ml none = .panic "index out of bounds" ∧
    get_updated_metadata fs mf ml none = .panic "index out of bounds" ∧
    ∀ e, get_updated_metadata fs mf ml none ≠ .err e := by
  have hdoc : get_updated_metadata_doc fs mf ml none = .panic "index out of bounds" := by
    simp [get_updated_metadata_doc, hopen, hparsed, hempty]
  refine ⟨hdoc, ?_, ?_⟩
  · simp [get_updated_metadata, hdoc]
  · intro e h
    rw [get_updated_metadata, hdoc] at h
    exact RunResult.noConfusion h

/-- Witness for C9 at a concrete filesystem serving a document with an
empty file-entry list. -/
theorem C9_entry0_panic_witness :
    exFSempty "m.json" = some ⟨[], some exMetaEmpty⟩ ∧
    exMetaEmpty.properties.files = [] ∧
    (get_updated_metadata_doc exFSempty "m.json" "L" none = .panic "index out of bounds" ∧
     get_updated_metadata exFSempty "m.json" "L" none = .panic "index out of bounds" ∧
     ∀ e, get_updated_metadata exFSempty "m.json" "L" none ≠ .err e) :=
  ⟨rfl, rfl,
    C9_entry0_panic exFSempty "m.json" "L" ⟨[], some exMetaEmpty⟩ exMetaEmpty
      rfl rfl rfl⟩

theorem processPairs_no_panic (d : String) (fs : FS) (paths : List String) :
    ∀ (L : List String) (acc : List (Nat × AssetPair)) (msg : String),
      processPairs d fs paths L acc ≠ .panic msg := by
  intro L
  induction L with
  | nil =>
    intro acc msg h
    rw [processPairs] at h
    exact RunResult.noConfusion h
  | cons mf rest ih =>
    intro acc msg h
    rw [processPairs] at h
    cases hp : processOne d fs paths mf with
    | err e => rw [hp] at h; exact RunResult.noConfusion h
    | panic m => exact processOne_no_panic d fs paths mf m hp
    | ok iv => rw [hp] at h; exact ih _ msg h

theorem countStep_panic_inv (e : DirEntry)
    (r : RunResult CountError (List DirEntry)) (msg : String)
    (h : countStep e r = .panic msg) :
    msg = "Failed to convert file name to valid unicode." ∨
    msg = "Failed to retrieve metadata from file" ∨ r = .panic msg := by
  rw [countStep.eq_def] at h
  split at h
  · exact Or.inl (RunResult.panic.inj h).symm
  · split at h
    · exact Or.inr (Or.inr h)
    · split at h
      · exact Or.inr (Or.inl (RunResult.panic.inj h).symm)
      · split at h
        · simp at h
        · simp at h
        · rename_i m
          exact Or.inr (Or.inr (congrArg RunResult.panic (RunResult.panic.inj h)))

theorem countLoop_panic_inv (L : List DirEntry) (msg : String)
    (h : countLoop L = .panic msg) :
    msg = "Failed to convert file name to valid unicode." ∨
    msg = "Failed to retrieve metadata from file" := by
  induction L with
  | nil =>
    rw [countLoop] at h
    exact absurd h (by simp)
  | cons e rest ih =>
    rw [countLoop] at h
    rcases countStep_panic_inv e (countLoop rest) msg h with h1 | h2 | h3
    · exact Or.inl h1
    · exact Or.inr h2
    · exact ih h3

theorem count_files_panic_inv (rd : ReadDir) (msg : String)
    (h : count_files rd = .panic msg) :
    msg = "Failed to convert file name to valid unicode." ∨
    msg = "Failed to retrieve metadata from file" := by
  cases rd with
  | none => exact RunResult.noConfusion h
  | some entries => exact countLoop_panic_inv (entries.filterMap id) msg h

theorem get_asset_pairs_panic_inv (rd : ReadDir) (fs : FS) (d : String)
    (msg : String) (h : get_asset_pairs rd fs d = .panic msg) :
    msg = "Failed to convert file name to valid unicode." ∨
    msg = "Failed to retrieve metadata from file" := by
  cases hc : count_files rd with
  | err e =>
    rw [get_asset_pairs.eq_def, hc] at h
    simp at h
  | panic m =>
    rw [get_asset_pairs.eq_def, hc] at h
    have hm : m = msg := by simpa using h
    exact count_files_panic_inv rd msg (hm ▸ hc)
  | ok entries =>
    rw [get_asset_pairs.eq_def, hc] at h
    exact absurd h (processPairs_no_panic d fs (entries.map entryName)
      (metadataFiles (entries.map entryName)) [] msg)

/-- Claim C10, counterexample: contrary to the claim, the program does not
panic while building the media regex from the raw stem "+3": the regex
crate accepts the pattern (the leading `+` repeats the `^` assertion), so
at the scanned set holding only "+3.json" the pattern — effectively
anchored on "3" — matches nothing and `get_asset_pairs` returns the
missing-media error for index 3, an error, not a panic. -/
theorem C10_counterexample :
    parseUsize (stemOf "+3.json") = some 3 ∧
    ((stemOf "+3.json").data.all Char.isDigit = false) ∧
    get_asset_pairs exDirC10 exFSgood "assets" = .err (.missingMedia 3) ∧
    ∀ msg, get_asset_pairs exDirC10 exFSgood "assets" ≠ .panic msg := by
  refine ⟨by decide, by decide, by decide, ?_⟩
  intro msg h
  rw [(by decide : get_asset_pairs exDirC10 exFSgood "assets" =
    .err (.missingMedia 3))] at h
  exact RunResult.noConfusion h

/-- Claim C10, amended: a stem such as "+3" passes usize parsing without
being digit-only, but interpolating it unescaped does not break the regex
build — the regex crate accepts the pattern, the leading `+` repeating
the `^` assertion — so `get_asset_pairs` proceeds with matching anchored
on the digit part: "3.png" matches and "+3.png" does not; at the set
holding only "+3.json" it returns the missing-media error for index 3,
with "3.png" also present it returns a mapping whose pair at index 3 has
media "3.png", and the only panics the whole function can raise are the
scanner's filename-conversion and metadata-lookup aborts, never a
regex-build failure. -/
theorem C10_no_regex_panic :
    parseUsize (stemOf "+3.json") = some 3 ∧
    ((stemOf "+3.json").data.all Char.isDigit = false) ∧
    effectiveStem (stemOf "+3.json") = "3" ∧
    extMatch mediaExts (stemOf "+3.json") "3.png" = true ∧
    extMatch mediaExts (stemOf "+3.json") "+3.png" = false ∧
    get_asset_pairs exDirC10 exFSgood "assets" = .err (.missingMedia 3) ∧
    (∃ m pair, get_asset_pairs exDirC10b exFSgood "assets" = .ok m ∧
      lookupPair m 3 = some pair ∧ pair.media = joinPath "assets" "3.png") ∧
    (∀ rd fs d msg, get_asset_pairs rd fs d = .panic msg →
      msg = "Failed to convert file name to valid unicode." ∨
      msg = "Failed to retrieve metadata from file") := by
  refine ⟨by decide, by decide, by decide, by decide, by decide, by decide, ?_,
    fun rd fs d msg h => get_asset_pairs_panic_inv rd fs d msg h⟩
  obtain ⟨pair, hpair, -, -, hmedia2, -, -⟩ :=
    processOne_eval "assets" exFSgood exPathsC10b "+3.json" 3 "3.png" []
      ⟨[], some exMeta⟩ exMeta (by decide) (by decide) rfl rfl
      (fun p => ⟨⟨[], some exMeta⟩, rfl⟩)
  refine ⟨insertPair [] 3 pair, pair, ?_, lookup_insert_self [] 3 pair, hmedia2⟩
  rw [get_asset_pairs_eq exDirC10b exFSgood "assets"
    [⟨some "+3.json", some true⟩, ⟨some "3.png", some true⟩] (by decide)]
  rw [(by decide : [(⟨some "+3.json", some true⟩ : DirEntry),
    ⟨some "3.png", some true⟩].map entryName = exPathsC10b)]
  rw [(by decide : metadataFiles exPathsC10b = ["+3.json"])]
  rw [processPairs, hpair]
  exact rfl

/-- Claim C5, counterexample: the claim quantifies over every parseable
metadata document, but on a parseable document whose file-entry list is
empty the rewriter panics at the unguarded positional write to entry 0
and never returns serialized text, so the universally stated claim is
false. -/
theorem C5_counterexample :
    exFSempty "m.json" = some ⟨[], some exMetaEmpty⟩ ∧
    get_updated_metadata_doc exFSempty "m.json" "L" none = .panic "index out of bounds" ∧
    ∀ s, get_updated_metadata exFSempty "m.json" "L" none ≠ .ok s := by
  have hdoc : get_updated_metadata_doc exFSempty "m.json" "L" none =
      .panic "index out of bounds" := by decide
  refine ⟨rfl, hdoc, ?_⟩
  intro s h
  rw [get_updated_metadata, hdoc] at h
  simp at h

/-- Claim C5, amended: for every parseable metadata document whose
file-entry list is non-empty (and has at least two entries whenever an
animation link is supplied), `get_updated_metadata` returns the updated
document serialized as text, with the image field and the entry-0 URI
both equal to the supplied media link, and, when an animation link is
supplied, the animation field and the entry-1 URI both equal to it; the
function only reads the filesystem and hands the text back. -/
theorem C5_rewritten_links (fs : FS) (mf ml : String) (al : Option String)
    (fi : FileInfo) (md : Metadata)
    (hopen : fs mf = some fi) (hparsed : fi.parsed = some md)
    (hlen0 : 0 < md.properties.files.length)
    (hlen1 : ∀ a, al = some a → 1 < md.properties.files.length) :
    ∃ md2, get_updated_metadata_doc fs mf ml al = .ok md2 ∧
      get_updated_metadata fs mf ml al = .ok (serializeMetadata md2) ∧
      md2.image = ml ∧
      (∃ f0, md2.properties.files.head? = some f0 ∧ f0.uri = ml) ∧
      md2.name = md.name ∧
      (al = none → md2.animation_url = md.animation_url) ∧
      (∀ a, al = some a → md2.animation_url = some a ∧
        ∃ f1, md2.properties.files[1]? = some f1 ∧ f1.uri = a) := by
  cases al with
  | none =>
    obtain ⟨f0, rest, hfiles⟩ : ∃ f0 rest, md.properties.files = f0 :: rest := by
      cases hf : md.properties.files with
      | nil => rw [hf] at hlen0; simp at hlen0
      | cons x y => exact ⟨x, y, rfl⟩
    have hdoc : get_updated_metadata_doc fs mf ml none =
        .ok ⟨md.name, ml, md.animation_url, ⟨{ f0 with uri := ml } :: rest⟩⟩ := by
      simp [get_updated_metadata_doc, hopen, hparsed, hfiles, setEntryUri]
    refine ⟨_, hdoc, ?_, rfl, ⟨_, rfl, rfl⟩, rfl, fun _ => rfl,
      fun a ha => absurd ha (by simp)⟩
    rw [get_updated_metadata, hdoc]
  | some a =>
    obtain ⟨f0, f1, rest2, hfiles⟩ :
        ∃ f0 f1 rest2, md.properties.files = f0 :: f1 :: rest2 := by
      have h2 := hlen1 a rfl
      cases hf : md.properties.files with
      | nil => rw [hf] at h2; simp at h2
      | cons x y =>
        cases hy : y with
        | nil => rw [hf, hy] at h2; simp at h2
        | cons z w => exact ⟨x, z, w, rfl⟩
    have hdoc : get_updated_metadata_doc fs mf ml (some a) =
        .ok ⟨md.name, ml, some a,
          ⟨{ f0 with uri := ml } :: { f1 with uri := a } :: rest2⟩⟩ := by
      simp [get_updated_metadata_doc, hopen, hparsed, hfiles, setEntryUri,
        Nat.one_lt_succ_succ]
    refine ⟨_, hdoc, ?_, rfl, ⟨_, rfl, rfl⟩, rfl, fun h0 => by simp at h0,
      fun a2 ha2 => ?_⟩
    · rw [get_updated_metadata, hdoc]
    · cases ha2
      exact ⟨rfl, { f1 with uri := a }, by simp, rfl⟩

/-- Witness for the amended C5 at a concrete two-entry document with an
animation link supplied. -/
theorem C5_rewritten_links_witness :
    exFSgood "m.json" = some ⟨[], some exMeta⟩ ∧
    (⟨[], some exMeta⟩ : FileInfo).parsed = some exMeta ∧
    0 < exMeta.properties.files.length ∧
    (∃ md2, get_updated_metadata_doc exFSgood "m.json" "L" (some "A") = .ok md2 ∧
      get_updated_metadata exFSgood "m.json" "L" (some "A") = .ok (serializeMetadata md2) ∧
      md2.image = "L" ∧
      (∃ f0, md2.properties.files.head? = some f0 ∧ f0.uri = "L") ∧
      md2.name = exMeta.name ∧
      (some "A" = none → md2.animation_url = exMeta.animation_url) ∧
      (∀ a, some "A" = some a → md2.animation_url = some a ∧
        ∃ f1, md2.properties.files[1]? = some f1 ∧ f1.uri = a)) :=
  ⟨rfl, rfl, by decide,
    C5_rewritten_links exFSgood "m.json" "L" (some "A") ⟨[], some exMeta⟩ exMeta
      rfl rfl (by decide) (fun a _ => by decide)⟩

/-- Claim C6, counterexample: on a parseable document with a single file
entry and a supplied animation link, `get_updated_metadata` does not
return an error as the claim states; it panics at the out-of-bounds
positional write to entry 1. -/
theorem C6_counterexample :
    exFSone "m.json" = some ⟨[], some exMetaOne⟩ ∧
    exMetaOne.properties.files.length = 1 ∧
    get_updated_metadata_doc exFSone "m.json" "L" (some "A") = .panic "index out of bounds" ∧
    (∀ e, get_updated_metadata_doc exFSone "m.json" "L" (some "A") ≠ .err e) ∧
    (∀ e, get_updated_metadata exFSone "m.json" "L" (some "A") ≠ .err e) := by
  have hdoc : get_updated_metadata_doc exFSone "m.json" "L" (some "A") =
      .panic "index out of bounds" := by decide
  refine ⟨rfl, rfl, hdoc, ?_, ?_⟩
  · intro e h
    rw [hdoc] at h
    exact RunResult.noConfusion h
  · intro e h
    rw [get_updated_metadata, hdoc] at h
    simp at h

/-- Claim C6, amended: when the metadata document's file-entry list has no
entry at position 1 and an animation link is supplied, the rewriter fails
by panicking with an index-out-of-bounds abort (a defined Rust abort, not
an undefined access) rather than by returning a typed error. -/
theorem C6_missing_entry1_panics (fs : FS) (mf ml a : String)
    (fi : FileInfo) (md : Metadata)
    (hopen : fs mf = some fi) (hparsed : fi.parsed = some md)
    (hlen : md.properties.files.length < 2) :
    get_updated_metadata_doc fs mf ml (some a) = .panic "index out of bounds" ∧
    get_updated_metadata fs mf ml (some a) = .panic "index out of bounds" := by
  have hdoc : get_updated_metadata_doc fs mf ml (some a) =
      .panic "index out of bounds" := by
    cases hf : md.properties.files with
    | nil => simp [get_updated_metadata_doc, hopen, hparsed, hf]
    | cons f0 rest =>
      cases rest with
      | nil => simp [get_updated_metadata_doc, hopen, hparsed, hf, setEntryUri]
      | cons f1 r2 =>
        rw [hf] at hlen
        simp [List.length_cons] at hlen
        omega
  refine ⟨hdoc, ?_⟩
  rw [get_updated_metadata, hdoc]

/-- Witness for the amended C6 at a concrete one-entry document. -/
theorem C6_missing_entry1_panics_witness :
    exFSone "m.json" = some ⟨[], some exMetaOne⟩ ∧
    (⟨[], some exMetaOne⟩ : FileInfo).parsed = some exMetaOne ∧
    exMetaOne.properties.files.length < 2 ∧
    (get_updated_metadata_doc exFSone "m.json" "L" (some "A") = .panic "index out of bounds" ∧
     get_updated_metadata exFSone "m.json" "L" (some "A") = .panic "index out of bounds") :=
  ⟨rfl, rfl, by decide,
    C6_missing_entry1_panics exFSone "m.json" "L" "A" ⟨[], some exMetaOne⟩
      exMetaOne rfl rfl (by decide)⟩

theorem countStep_name_none (e : DirEntry) (r : RunResult CountError (List DirEntry))
    (hn : e.name = none) :
    countStep e r = .panic "Failed to convert file name to valid unicode." := by
  simp [countStep, hn]

theorem countStep_hidden (e : DirEntry) (n : String)
    (r : RunResult CountError (List DirEntry))
    (hn : e.name = some n) (hd : startsWithChar n '.' = true) :
    countStep e r = r := by
  simp [countStep, hn, hd]

theorem countStep_meta_none (e : DirEntry) (n : String)
    (r : RunResult CountError (List DirEntry))
    (hn : e.name = some n) (hd : startsWithChar n '.' = false)
    (hm : e.meta = none) :
    countStep e r = .panic "Failed to retrieve metadata from file" := by
  simp [countStep, hn, hd, hm]

theorem countStep_pass (e : DirEntry) (n : String) (b : Bool)
    (r : RunResult CountError (List DirEntry))
    (hn : e.name = some n) (hd : startsWithChar n '.' = false)
    (hm : e.meta = some b) :
    countStep e r =
      match r with
      | .ok l => .ok (if b then e :: l else l)
      | .err er => .err er
      | .panic m => .panic m := by
  simp [countStep, hn, hd, hm]

theorem countLoop_ok_mem (L : List DirEntry) :
    ∀ l, countLoop L = .ok l →
    ∀ e ∈ l, (∃ n, e.name = some n ∧ startsWithChar n '.' = false) ∧
      e.meta = some true := by
  induction L with
  | nil =>
    intro l h
    rw [countLoop] at h
    simp only [RunResult.ok.injEq] at h
    subst h
    simp
  | cons e2 rest ih =>
    intro l h
    rw [countLoop] at h
    cases hn : e2.name with
    | none => rw [countStep_name_none e2 _ hn] at h; simp at h
    | some n =>
      by_cases hd : startsWithChar n '.'
      · rw [countStep_hidden e2 n _ hn hd] at h
        exact ih l h
      · have hd2 : startsWithChar n '.' = false := (Bool.not_eq_true _).mp hd
        cases hm : e2.meta with
        | none => rw [countStep_meta_none e2 n _ hn hd2 hm] at h; simp at h
        | some isFile =>
          rw [countStep_pass e2 n isFile _ hn hd2 hm] at h
          cases hr : countLoop rest with
          | err e3 => rw [hr] at h; simp at h
          | panic s => rw [hr] at h; simp at h
          | ok l2 =>
            rw [hr] at h
            have h2 := RunResult.ok.inj h
            subst h2
            intro e3 he3
            by_cases hf : isFile
            · rw [if_pos (by rw [hf])] at he3
              rcases List.mem_cons.mp he3 with rfl | he4
              · exact ⟨⟨n, hn, hd2⟩, by rw [hm, hf]⟩
              · exact ih l2 hr e3 he4
            · rw [if_neg (by simp [hf])] at he3
              exact ih l2 hr e3 he3

theorem countLoop_name_panic (L : List DirEntry) (e : DirEntry)
    (hmem : e ∈ L) (hname : e.name = none) :
    ∃ msg, countLoop L = .panic msg := by
  induction L with
  | nil => simp at hmem
  | cons e2 rest ih =>
    rw [countLoop]
    cases hn : e2.name with
    | none => rw [countStep_name_none e2 _ hn]; exact ⟨_, rfl⟩
    | some n =>
      have hmem2 : e ∈ rest := by
        rcases List.mem_cons.mp hmem with rfl | h2
        · rw [hname] at hn; exact Option.noConfusion hn
        · exact h2
      obtain ⟨msg, hmsg⟩ := ih hmem2
      by_cases hd : startsWithChar n '.'
      · rw [countStep_hidden e2 n _ hn hd]
        exact ⟨msg, hmsg⟩
      · have hd2 : startsWithChar n '.' = false := (Bool.not_eq_true _).mp hd
        cases hm : e2.meta with
        | none => rw [countStep_meta_none e2 n _ hn hd2 hm]; exact ⟨_, rfl⟩
        | some isFile =>
          rw [countStep_pass e2 n isFile _ hn hd2 hm, hmsg]
          exact ⟨msg, rfl⟩

theorem countLoop_meta_panic (L : List DirEntry) (e : DirEntry) (n : String)
    (hmem : e ∈ L) (hname : e.name = some n)
    (hdot : startsWithChar n '.' = false) (hmeta : e.meta = none) :
    ∃ msg, countLoop L = .panic msg := by
  induction L with
  | nil => simp at hmem
  | cons e2 rest ih =>
    rw [countLoop]
    rcases List.mem_cons.mp hmem with rfl | hmem2
    · rw [countStep_meta_none e n _ hname hdot hmeta]
      exact ⟨_, rfl⟩
    · obtain ⟨msg, hmsg⟩ := ih hmem2
      cases hn : e2.name with
      | none => rw [countStep_name_none e2 _ hn]; exact ⟨_, rfl⟩
      | some n2 =>
        by_cases hd : startsWithChar n2 '.'
        · rw [countStep_hidden e2 n2 _ hn hd]
          exact ⟨msg, hmsg⟩
        · have hd2 : startsWithChar n2 '.' = false := (Bool.not_eq_true _).mp hd
          cases hm : e2.meta with
          | none => rw [countStep_meta_none e2 n2 _ hn hd2 hm]; exact ⟨_, rfl⟩
          | some isFile =>
            rw [countStep_pass e2 n2 isFile _ hn hd2 hm, hmsg]
            exact ⟨msg, rfl⟩

/-- Claim C8, counterexample: a hidden entry whose metadata lookup would
fail is not treated as fatal; the short-circuit `&&` in the filter never
consults its metadata, so the scan silently excludes it and succeeds,
refuting the claim that any entry failing a metadata lookup is fatal. -/
theorem C8_counterexample :
    exDirC8 = some [some ⟨some ".DS_Store", none⟩] ∧
    (⟨some ".DS_Store", none⟩ : DirEntry).meta = none ∧
    count_files exDirC8 = .ok [] ∧
    ∀ msg, count_files exDirC8 ≠ .panic msg := by
  refine ⟨rfl, rfl, by decide, ?_⟩
  intro msg h
  rw [(by decide : count_files exDirC8 = .ok [])] at h
  exact RunResult.noConfusion h

/-- Claim C8, amended: `count_files` fails with an error when the directory
cannot be read; a successful scan returns exactly the regular,
non-hidden-named entries; an entry without a valid unicode filename is
always fatal (panic), and an entry whose metadata lookup fails is fatal
precisely when its filename does not start with a dot — for a hidden
entry the metadata is never consulted and the entry is silently excluded. -/
theorem C8_count_files (entries : List (Option DirEntry)) :
    (count_files none = .err .readDirFailed) ∧
    (∀ l, count_files (some entries) = .ok l →
      ∀ e ∈ l, (∃ n, e.name = some n ∧ startsWithChar n '.' = false) ∧
        e.meta = some true) ∧
    (∀ e : DirEntry, some e ∈ entries → e.name = none →
      ∃ msg, count_files (some entries) = .panic msg) ∧
    (∀ (e : DirEntry) (n : String), some e ∈ entries → e.name = some n →
      startsWithChar n '.' = false → e.meta = none →
      ∃ msg, count_files (some entries) = .panic msg) := by
  refine ⟨rfl, ?_, ?_, ?_⟩
  · intro l h
    exact countLoop_ok_mem (entries.filterMap id) l h

  · intro e hmem hname
    exact countLoop_name_panic (entries.filterMap id) e
      (List.mem_filterMap.mpr ⟨some e, hmem, rfl⟩) hname
  · intro e n hmem hname hdot hmeta
    exact countLoop_meta_panic (entries.filterMap id) e n
      (List.mem_filterMap.mpr ⟨some e, hmem, rfl⟩) hname hdot hmeta

/-- Witness for the amended C8 on a concrete listing: a regular file, a
directory, a hidden file and a dropped iterator error. -/
theorem C8_count_files_witness :
    count_files none = .err .readDirFailed ∧
    count_files (some [some ⟨some "0.json", some true⟩, some ⟨some "sub", some false⟩,
      some ⟨some ".DS_Store", some true⟩, none]) =
        .ok [⟨some "0.json", some true⟩] ∧
    (∃ msg, count_files (some [some ⟨some "x.png", none⟩]) = .panic msg) := by
  refine ⟨(C8_count_files []).1, by decide, ?_⟩
  exact (C8_count_files [some ⟨some "x.png", none⟩]).2.2.2
    ⟨some "x.png", none⟩ "x.png" (by simp) rfl (by decide) rfl

/-- Claim C3, counterexample: with scanned files "0.json" (which lacks
media) and "abc.json" (whose stem is non-numeric), the loop hits the
missing-media failure of index 0 first, so the returned error does not
name the offending filename "abc.json"; the claim's universally stated
error shape is false, though no mapping is produced. -/
theorem C3_counterexample :
    "abc.json" ∈ metadataFiles exPathsC3 ∧
    parseUsize (stemOf "abc.json") = none ∧
    (∀ p, ∃ fi, exFSgood p = some fi ∧ ∃ md, fi.parsed = some md) ∧
    get_asset_pairs exDirC3 exFSgood "assets" = .err (.missingMedia 0) ∧
    get_asset_pairs exDirC3 exFSgood "assets" ≠ .err (.invalidIndex "abc.json") :=
  ⟨by decide, by decide, fun _ => ⟨⟨[], some exMeta⟩, rfl, exMeta, rfl⟩,
    by decide, by decide⟩

/-- Claim C3, amended: when a scanned metadata filename's stem does not
parse as a non-negative integer, `get_asset_pairs` never returns a mapping
(the failure is fatal for the whole reconciliation), and when every
metadata filename processed before it succeeds, the returned error is the
invalid-index error naming the offending filename. -/
theorem C3_invalid_index (rd : ReadDir) (fs : FS) (d : String)
    (entries : List DirEntry) (paths : List String)
    (hscan : count_files rd = .ok entries)
    (hpaths : paths = entries.map entryName) :
    ∀ mf ∈ metadataFiles paths, parseUsize (stemOf mf) = none →
      (∀ m, get_asset_pairs rd fs d ≠ .ok m) ∧
      (∀ pre rest, metadataFiles paths = pre ++ mf :: rest →
        (∀ m2 ∈ pre, ∃ iv, processOne d fs paths m2 = .ok iv) →
        get_asset_pairs rd fs d = .err (.invalidIndex mf)) := by
  intro mf hmem hbad
  subst hpaths
  constructor
  · intro m hok
    rw [get_asset_pairs_eq rd fs d entries hscan] at hok
    obtain ⟨iv, hiv⟩ := processPairs_ok_mem d fs _ _ [] m hok mf hmem
    rw [processOne_invalid d fs _ mf hbad] at hiv
    exact RunResult.noConfusion hiv
  · intro pre rest hsplit hpre
    rw [get_asset_pairs_eq rd fs d entries hscan, hsplit]
    exact processPairs_first_err d fs _ pre mf rest [] _ hpre
      (processOne_invalid d fs _ mf hbad)

/-- Witness for the amended C3 on a directory holding only "abc.json". -/
theorem C3_invalid_index_witness :
    count_files exDirC3W = .ok [⟨some "abc.json", some true⟩] ∧
    exPathsC3W = [(⟨some "abc.json", some true⟩ : DirEntry)].map entryName ∧
    "abc.json" ∈ metadataFiles exPathsC3W ∧
    parseUsize (stemOf "abc.json") = none ∧
    ((∀ m, get_asset_pairs exDirC3W exFSgood "assets" ≠ .ok m) ∧
     (∀ pre rest, metadataFiles exPathsC3W = pre ++ "abc.json" :: rest →
       (∀ m2 ∈ pre, ∃ iv, processOne "assets" exFSgood exPathsC3W m2 = .ok iv) →
       get_asset_pairs exDirC3W exFSgood "assets" = .err (.invalidIndex "abc.json"))) :=
  ⟨by decide, by decide, by decide, by decide,
    C3_invalid_index exDirC3W exFSgood "assets" [⟨some "abc.json", some true⟩]
      exPathsC3W (by decide) (by decide) "abc.json" (by decide) (by decide)⟩

/-- Claim C4, counterexample: with scanned files "0.json" and "3.json" and
no media at all, index 3 has a valid metadata index and a media pattern
matching zero filenames, yet the returned error is the missing-media error
of index 0 (hit first), not one referencing index 3, so the claim's
universally stated error shape is false. -/
theorem C4_counterexample :
    "3.json" ∈ metadataFiles exPathsC4 ∧
    parseUsize (stemOf "3.json") = some 3 ∧
    mediaFilesFor exPathsC4 "3.json" = [] ∧
    (∀ p, ∃ fi, exFSgood p = some fi ∧ ∃ md, fi.parsed = some md) ∧
    get_asset_pairs exDirC4 exFSgood "assets" = .err (.missingMedia 0) ∧
    get_asset_pairs exDirC4 exFSgood "assets" ≠ .err (.missingMedia 3) :=
  ⟨by decide, by decide, by decide, fun _ => ⟨⟨[], some exMeta⟩, rfl, exMeta, rfl⟩,
    by decide, by decide⟩

/-- Claim C4, amended: when a valid metadata index has zero media-pattern
matches, `get_asset_pairs` never returns a mapping; when additionally
every earlier metadata filename succeeds, the returned error is the
missing-media error carrying that index; and when more than one filename
matches the media pattern, the loop body succeeds and deterministically
picks the first match in iteration order as the pair's media path. -/
theorem C4_missing_media (rd : ReadDir) (fs : FS) (d : String)
    (entries : List DirEntry) (paths : List String)
    (hscan : count_files rd = .ok entries)
    (hpaths : paths = entries.map entryName) :
    (∀ mf idx, mf ∈ metadataFiles paths → parseUsize (stemOf mf) = some idx →
      mediaFilesFor paths mf = [] → ∀ m, get_asset_pairs rd fs d ≠ .ok m) ∧
    (∀ mf idx pre rest, metadataFiles paths = pre ++ mf :: rest →
      parseUsize (stemOf mf) = some idx →
      mediaFilesFor paths mf = [] →
      (∀ m2 ∈ pre, ∃ iv, processOne d fs paths m2 = .ok iv) →
      get_asset_pairs rd fs d = .err (.missingMedia idx)) ∧
    (∀ mf idx img imgs mfi md,
      parseUsize (stemOf mf) = some idx →
      mediaFilesFor paths mf = img :: imgs →
      fs (joinPath d mf) = some mfi → mfi.parsed = some md →
      (∀ p, ∃ fi, fs p = some fi) →
      ∃ pair, processOne d fs paths mf = .ok (idx, pair) ∧
        pair.media = joinPath d img) := by
  subst hpaths
  refine ⟨?_, ?_, ?_⟩
  · intro mf idx hmem hparse hmedia m hok
    rw [get_asset_pairs_eq rd fs d entries hscan] at hok
    obtain ⟨iv, hiv⟩ := processPairs_ok_mem d fs _ _ [] m hok mf hmem
    rw [processOne_missing d fs _ mf idx hparse hmedia] at hiv
    exact RunResult.noConfusion hiv
  · intro mf idx pre rest hsplit hparse hmedia hpre
    rw [get_asset_pairs_eq rd fs d entries hscan, hsplit]
    exact processPairs_first_err d fs _ pre mf rest [] _ hpre
      (processOne_missing d fs _ mf idx hparse hmedia)
  · intro mf idx img imgs mfi md hparse hmedia hopen hparsed hfs
    obtain ⟨pair, hpair, _, _, hmedia2, _, _⟩ :=
      processOne_eval d fs _ mf idx img imgs mfi md hparse hmedia hopen
        hparsed hfs
    exact ⟨pair, hpair, hmedia2⟩

/-- Witness for the amended C4 on a directory holding only "5.json". -/
theorem C4_missing_media_witness :
    count_files exDirC4W = .ok [⟨some "5.json", some true⟩] ∧
    ["5.json"] = [(⟨some "5.json", some true⟩ : DirEntry)].map entryName ∧
    (∀ mf idx, mf ∈ metadataFiles ["5.json"] →
      parseUsize (stemOf mf) = some idx →
      mediaFilesFor ["5.json"] mf = [] →
      ∀ m, get_asset_pairs exDirC4W exFSgood "assets" ≠ .ok m) :=
  ⟨by decide, by decide,
    (C4_missing_media exDirC4W exFSgood "assets" [⟨some "5.json", some true⟩]
      ["5.json"] (by decide) (by decide)).1⟩

/-- Claim C1: for every scanned directory where each metadata filename's
stem parses to an index, each index has exactly one metadata file, each
metadata file has exactly one media-pattern match and at most one
animation match, and every file opens (the metadata ones parsing into a
document), `get_asset_pairs` returns a mapping holding exactly one
AssetPair per metadata index and omitting none; a pair whose index has no
animation match has both its animation and animation-hash fields absent. -/
theorem C1_reconciler (rd : ReadDir) (fs : FS) (d : String)
    (entries : List DirEntry) (paths : List String)
    (hscan : count_files rd = .ok entries)
    (hpaths : paths = entries.map entryName)
    (hidx : ∀ mf ∈ metadataFiles paths, ∃ idx, parseUsize (stemOf mf) = some idx)
    (huniq : ∀ mf ∈ metadataFiles paths, ∀ idx, parseUsize (stemOf mf) = some idx →
      metadataFilesForIndex paths idx = [mf])
    (hmedia : ∀ mf ∈ metadataFiles paths, ∃ img, mediaFilesFor paths mf = [img])
    (hanim : ∀ mf ∈ metadataFiles paths, (animationFilesFor paths mf).length ≤ 1)
    (hfs : ∀ p, ∃ fi, fs p = some fi ∧ ∃ md, fi.parsed = some md) :
    ∃ m, get_asset_pairs rd fs d = .ok m ∧
      (∀ idx, (∃ pair, lookupPair m idx = some pair) ↔
        (∃ mf ∈ metadataFiles paths, parseUsize (stemOf mf) = some idx)) ∧
      (∀ mf ∈ metadataFiles paths, ∀ idx, parseUsize (stemOf mf) = some idx →
        animationFilesFor paths mf = [] →
        ∃ pair, lookupPair m idx = some pair ∧ pair.animation = none ∧
          pair.animation_hash = none) := by
  subst hpaths
  have hfs1 : ∀ p, ∃ fi, fs p = some fi := fun p => ⟨(hfs p).choose, (hfs p).choose_spec.1⟩
  have hall : ∀ mf ∈ metadataFiles (entries.map entryName),
      ∃ iv, processOne d fs (entries.map entryName) mf = .ok iv := by
    intro mf hmf
    obtain ⟨idx, hp⟩ := hidx mf hmf
    obtain ⟨img, hm⟩ := hmedia mf hmf
    obtain ⟨mfi, hfi, md, hmd⟩ := hfs (joinPath d mf)
    obtain ⟨pair, hpair, -⟩ := processOne_eval d fs _ mf idx img [] mfi md hp
      hm hfi hmd hfs1
    exact ⟨(idx, pair), hpair⟩
  obtain ⟨m, hm⟩ := processPairs_ok_of_all d fs _ (metadataFiles (entries.map entryName)) [] hall
  have hga : get_asset_pairs rd fs d = .ok m := by
    rw [get_asset_pairs_eq rd fs d entries hscan]
    exact hm
  have key : ∀ mf ∈ metadataFiles (entries.map entryName),
      ∀ idx, parseUsize (stemOf mf) = some idx →
      ∃ pair, lookupPair m idx = some pair ∧
        pair.animation = (animationFilesFor (entries.map entryName) mf).head?.map (joinPath d) ∧
        (animationFilesFor (entries.map entryName) mf = [] →
          pair.animation_hash = none) := by
    intro mf hmf idx hp
    obtain ⟨img, hmed⟩ := hmedia mf hmf
    obtain ⟨mfi, hfi, md, hmd⟩ := hfs (joinPath d mf)
    obtain ⟨pair, hpair, -, -, -, hanim2, hhash⟩ := processOne_eval d fs _ mf idx img [] mfi md hp
      hmed hfi hmd hfs1
    obtain ⟨pre, rest, hsplit⟩ := List.append_of_mem hmf
    have hrest : ∀ m2 ∈ rest, parseUsize (stemOf m2) ≠ some idx := by
      intro m2 hm2r heq
      have hfil := huniq mf hmf idx hp
      unfold metadataFilesForIndex at hfil
      rw [hsplit, List.filter_append, List.filter_cons_of_pos (by simp [hp])] at hfil
      have hmem2 : m2 ∈ rest.filter (fun p => parseUsize (stemOf p) = some idx) :=
        List.mem_filter.mpr ⟨hm2r, by simp [heq]⟩
      cases hpre2 : pre.filter (fun p => parseUsize (stemOf p) = some idx) with
      | cons x xs => rw [hpre2] at hfil; simp at hfil
      | nil =>
        rw [hpre2, List.nil_append] at hfil
        rw [(List.cons.inj hfil).2] at hmem2
        simp at hmem2
    rw [hsplit] at hm
    exact ⟨pair, processPairs_found d fs _ pre mf rest [] m idx pair hm hpair hrest,
      hanim2, hhash⟩
  refine ⟨m, hga, ?_, ?_⟩
  · intro idx
    constructor
    · rintro ⟨pair, hlook⟩
      by_contra hno
      push_neg at hno
      have huntouched := processPairs_untouched d fs _ _ [] m idx hm
        (fun mf hmf heq => hno mf hmf heq)
      rw [lookupPair_nil] at huntouched
      rw [huntouched] at hlook
      exact Option.noConfusion hlook
    · rintro ⟨mf, hmf, hp⟩
      obtain ⟨pair, hlook, -, -⟩ := key mf hmf idx hp
      exact ⟨pair, hlook⟩
  · intro mf hmf idx hp hnilanim
    obtain ⟨pair, hlook, hanim2, hhash⟩ := key mf hmf idx hp
    refine ⟨pair, hlook, ?_, hhash hnilanim⟩
    rw [hanim2, hnilanim]
    rfl

/-- Witness for C1 on the conventional directory holding "0.json" and
"0.png". -/
theorem C1_reconciler_witness :
    count_files exDirW = .ok exEntriesW ∧
    exPathsW = exEntriesW.map entryName ∧
    (∃ m, get_asset_pairs exDirW exFSgood "assets" = .ok m ∧
      (∀ idx, (∃ pair, lookupPair m idx = some pair) ↔
        (∃ mf ∈ metadataFiles exPathsW, parseUsize (stemOf mf) = some idx)) ∧
      (∀ mf ∈ metadataFiles exPathsW, ∀ idx, parseUsize (stemOf mf) = some idx →
        animationFilesFor exPathsW mf = [] →
        ∃ pair, lookupPair m idx = some pair ∧ pair.animation = none ∧
          pair.animation_hash = none)) := by
  have honly : ∀ mf ∈ metadataFiles exPathsW, mf = "0.json" := by decide
  have hp0 : ∀ mf ∈ metadataFiles exPathsW, parseUsize (stemOf mf) = some 0 := by
    decide
  refine ⟨by decide, by decide, ?_⟩
  refine C1_reconciler exDirW exFSgood "assets" exEntriesW exPathsW
    (by decide) (by decide)
    (fun mf hmf => ⟨0, hp0 mf hmf⟩)
    (fun mf hmf idx hidx2 => ?_)
    (fun mf hmf => ?_)
    (by decide)
    (fun p => ⟨⟨[], some exMeta⟩, rfl, exMeta, rfl⟩)
  · rw [hp0 mf hmf] at hidx2
    cases hidx2
    rw [honly mf hmf]
    decide
  · rw [honly mf hmf]
    exact ⟨"0.png", by decide⟩
